/-
  Verification of the StagVault client-side search coordinator subsystem:
  provider cache (LRU + TTL), rate-limit tracker, provider client,
  ranking engine and the generation-stamped search coordinator.

  Shallow embedding of the JavaScript sources
  `static/js/stagvault.js` and `stagvault/static/web/app.js`.
  JS `Date.now()` timestamps are modelled as explicit `now` parameters;
  JS numbers used for durations are modelled as `ℚ` (exact division),
  integer header values as `Int`, strings as `String` or `List Char`.
-/
import Mathlib

namespace StagVault

/-! ## Association-list helpers (JS plain objects used as string maps) -/

/-- Lookup in a JS-object-as-map (first binding wins; keys are unique). -/
def assocGet {α : Type} (m : List (String × α)) (k : String) : Option α :=
  match m with
  | [] => none
  | (k', v) :: rest => if k' = k then some v else assocGet rest k

/-- JS `obj[k] = v`: overwrite an existing binding or append a new one. -/
def assocSet {α : Type} (m : List (String × α)) (k : String) (v : α) :
    List (String × α) :=
  match m with
  | [] => [(k, v)]
  | (k', v') :: rest =>
      if k' = k then (k', v) :: rest else (k', v') :: assocSet rest k v

/-- JS `delete obj[k]`: remove the binding for `k`, if any. -/
def assocDel {α : Type} (m : List (String × α)) (k : String) :
    List (String × α) :=
  match m with
  | [] => []
  | (k', v') :: rest =>
      if k' = k then rest else (k', v') :: assocDel rest k

/-! ## RateLimitTracker (`static/js/stagvault.js`, lines 581-610) -/

/-- One per-provider record, as written by `RateLimitTracker.update`:
`{ limit, remaining, reset_seconds, updatedAt }`.  `updatedAt` is a
`Date.now()` millisecond stamp. -/
structure RateLimitInfo where
  limit : Int
  remaining : Int
  reset_seconds : Int
  updatedAt : ℚ
  deriving Repr, DecidableEq

/-- The argument of `update` before the `updatedAt` stamp is added. -/
structure RateLimitUpdate where
  limit : Int
  remaining : Int
  reset_seconds : Int
  deriving Repr, DecidableEq

/-- The tracker object: `this.limits = {}` maps provider id to record. -/
structure RateLimitTracker where
  limits : List (String × RateLimitInfo)
  deriving Repr, DecidableEq

namespace RateLimitTracker

/-- A fresh tracker, `new RateLimitTracker()`. -/
def empty : RateLimitTracker := ⟨[]⟩

/-- Method `update(provider, info)`: overwrites the provider's record and stamps
`updatedAt = Date.now()` (line 586-591). -/
def update (t : RateLimitTracker) (provider : String) (info : RateLimitUpdate)
    (now : ℚ) : RateLimitTracker :=
  ⟨assocSet t.limits provider
    ⟨info.limit, info.remaining, info.reset_seconds, now⟩⟩

/-- Method `get(provider)` (lines 593-595): the record, or `null`. -/
def get (t : RateLimitTracker) (provider : String) : Option RateLimitInfo :=
  assocGet t.limits provider

/-- Method `shouldWait(provider)` (lines 597-601): false when no record exists,
otherwise `info.remaining <= 1`. -/
def shouldWait (t : RateLimitTracker) (provider : String) : Bool :=
  match assocGet t.limits provider with
  | none => false
  | some info => info.remaining ≤ 1

/-- Method `waitTime(provider)` (lines 603-609): `0` when there is no record or
`shouldWait` is false; otherwise
`Math.max(0, reset_seconds - (Date.now() - updatedAt)/1000) * 1000`. -/
def waitTime (t : RateLimitTracker) (provider : String) (now : ℚ) : ℚ :=
  match assocGet t.limits provider with
  | none => 0
  | some info =>
      if ¬ (shouldWait t provider = true) then 0
      else
        max 0 ((info.reset_seconds : ℚ) - (now - info.updatedAt) / 1000) * 1000

end RateLimitTracker

/-! ## ProviderCache (`static/js/stagvault.js`, lines 429-577)

localStorage-backed cache with TTL expiry and LRU eviction.  The model
assumes a storage backend is present (`this.storage` non-null), that
storage writes succeed (the `catch` branches for quota-exceeded writes
are not exercised), and that JSON serialisation round-trips; the stored
entry for `key` lives under `prefix + key` and the index under
`prefix + "_index"`, which the model keeps as two separate components. -/

/-- A stored entry: `{ value, expires, created }` (lines 512-516). -/
structure EntryData where
  value : String
  expires : Nat
  created : Nat
  deriving Repr, DecidableEq

/-- The stored index `{ keys: [], timestamps: {} }` (line 442). -/
structure CacheIndex where
  keys : List String
  timestamps : List (String × Nat)
  deriving Repr, DecidableEq

/-- The cache: capacity option plus the storage contents. -/
structure ProviderCache where
  maxSize : Nat
  entries : List (String × EntryData)
  index : CacheIndex
  deriving Repr, DecidableEq

/-- The access stamp `(index.timestamps[a] || 0)` (line 465). -/
def tsOf (index : CacheIndex) (a : String) : Nat :=
  (assocGet index.timestamps a).getD 0

/-- The comparator `(a, b) => (index.timestamps[a] || 0) - (index.timestamps[b] || 0)`
used to sort keys oldest-access-first (lines 464-466). -/
def tsLE (index : CacheIndex) (a b : String) : Prop :=
  tsOf index a ≤ tsOf index b

instance (index : CacheIndex) : DecidableRel (tsLE index) :=
  fun a b => inferInstanceAs (Decidable (tsOf index a ≤ tsOf index b))

/-- The `for` loop of `_evict` (lines 468-474).  `sorted` aliases
`index.keys`, so each `splice` shrinks the very array being indexed:
iteration `i` removes the element at position `i` of the *current*
array.  Returns (surviving keys, victims in removal order); the fuel
argument is `count - i`. -/
def evictLoopAux : Nat → Nat → List String → List String × List String
  | 0, _, arr => (arr, [])
  | Nat.succ fuel, i, arr =>
      if h : i < arr.length then
        let key := arr.get ⟨i, h⟩
        let arr' := arr.eraseIdx i
        let r := evictLoopAux fuel (i + 1) arr'
        (r.1, key :: r.2)
      else (arr, [])

/-- The loop of `_evict` started at `i = 0`. -/
def evictLoop (count : Nat) (arr : List String) : List String × List String :=
  evictLoopAux count 0 arr

namespace ProviderCache

/-- Method `_evict(count)` (lines 461-476): sort the index keys by last-access
timestamp (oldest first), run the removal loop, remove the victims'
entries and timestamps, and store the updated index. -/
def evict (c : ProviderCache) (count : Nat) : ProviderCache :=
  let index := c.index
  let sorted := index.keys.insertionSort (tsLE index)
  let r := evictLoop count sorted
  { c with
    entries := r.2.foldl (fun es k => assocDel es k) c.entries
    index := ⟨r.1, r.2.foldl (fun ts k => assocDel ts k) index.timestamps⟩ }

/-- Method `delete(key)` (lines 537-548): remove the stored entry; if the key is
present in the index, remove it and its timestamp and store the index. -/
def delete (c : ProviderCache) (key : String) : ProviderCache :=
  let entries' := assocDel c.entries key
  let index := c.index
  if key ∈ index.keys then
    { c with entries := entries'
             index := ⟨index.keys.erase key, assocDel index.timestamps key⟩ }
  else { c with entries := entries' }

/-- Method `get(key)` (lines 478-500): `null` when no entry is stored; an
expired entry (`Date.now() > expires`) is deleted and `null` returned;
otherwise the access time is refreshed and the value returned. -/
def get (c : ProviderCache) (key : String) (now : Nat) :
    Option String × ProviderCache :=
  match assocGet c.entries key with
  | none => (none, c)
  | some e =>
      if now > e.expires then (none, c.delete key)
      else
        (some e.value,
         { c with index := ⟨c.index.keys, assocSet c.index.timestamps key now⟩ })

/-- Method `set(key, value, ttl)` (lines 502-535): read the index, evict
`floor(maxSize / 4)` victims when at capacity and the key is new, store
the entry, then add the key to the index *snapshot read before the
eviction* (the local `index` of line 505) and store that snapshot —
faithfully reproducing the write-back of the pre-eviction index. -/
def set (c : ProviderCache) (key value : String) (ttl now : Nat) :
    ProviderCache :=
  let index := c.index
  let c1 :=
    if index.keys.length ≥ c.maxSize ∧ key ∉ index.keys then
      c.evict (c.maxSize / 4)
    else c
  let data : EntryData := ⟨value, now + ttl, now⟩
  let entries' := assocSet c1.entries key data
  let keys' := if key ∈ index.keys then index.keys else index.keys ++ [key]
  { c1 with entries := entries'
            index := ⟨keys', assocSet index.timestamps key now⟩ }

/-- Method `clear(providerPrefix)` (lines 550-567). -/
def clear (c : ProviderCache) (providerPrefix : Option String) : ProviderCache :=
  let index := c.index
  let keysToDelete :=
    match providerPrefix with
    | some p => index.keys.filter (fun (k : String) => k.startsWith p)
    | none => index.keys
  { c with
    entries := keysToDelete.foldl (fun es k => assocDel es k) c.entries
    index := ⟨keysToDelete.foldl (fun ks k => ks.erase k) index.keys,
              keysToDelete.foldl (fun ts k => assocDel ts k) index.timestamps⟩ }

/-- Method `stats()` (lines 569-576): `{ count, maxSize, keys }`. -/
def stats (c : ProviderCache) : Nat × Nat × List String :=
  (c.index.keys.length, c.maxSize, c.index.keys)

end ProviderCache

/-- A concrete cache at capacity `maxSize = 4`, holding entries
`a, b, c, d` with strictly increasing last-access timestamps; used to
exercise `set` of a fifth key. -/
def cacheDemo : ProviderCache :=
  { maxSize := 4
    entries := [("a", ⟨"va", 1000000, 0⟩), ("b", ⟨"vb", 1000000, 0⟩),
                ("c", ⟨"vc", 1000000, 0⟩), ("d", ⟨"vd", 1000000, 0⟩)]
    index := ⟨["a", "b", "c", "d"],
              [("a", 10), ("b", 20), ("c", 30), ("d", 40)]⟩ }

/-- The state of `cacheDemo` after `set("e", "ve", 100)` at `Date.now() = 50`. -/
def cacheDemoAfterSet : ProviderCache := cacheDemo.set "e" "ve" 100 50

/-- A cache at capacity `maxSize = 8` holding keys `k0 .. k7` with
last-access timestamps `10, 20, ..., 80`; `set` of a ninth key evicts
`floor(8/4) = 2` victims. -/
def cacheDemo8 : ProviderCache :=
  { maxSize := 8
    entries := [("k0", ⟨"v0", 1000000, 0⟩), ("k1", ⟨"v1", 1000000, 0⟩),
                ("k2", ⟨"v2", 1000000, 0⟩), ("k3", ⟨"v3", 1000000, 0⟩),
                ("k4", ⟨"v4", 1000000, 0⟩), ("k5", ⟨"v5", 1000000, 0⟩),
                ("k6", ⟨"v6", 1000000, 0⟩), ("k7", ⟨"v7", 1000000, 0⟩)]
    index := ⟨["k0", "k1", "k2", "k3", "k4", "k5", "k6", "k7"],
              [("k0", 10), ("k1", 20), ("k2", 30), ("k3", 40),
               ("k4", 50), ("k5", 60), ("k6", 70), ("k7", 80)]⟩ }

/-- Modelled from the spec (§4.2): the reserve threshold that the
specification attributes to `shouldWait` — "10% under 100 req/window,
5% for 100-500, 3% above 500" of the provider's nominal limit.  Written
solely to compare the spec's claimed policy with the source's actual
`shouldWait`; the source itself contains no such computation. -/
def specReserveThreshold (limit : Int) : ℚ :=
  if limit < 100 then (limit : ℚ) / 10
  else if limit ≤ 500 then (limit : ℚ) / 20
  else (limit : ℚ) * 3 / 100

/-- Modelled from the spec (§4.2): `shouldWait` as the specification
describes it — true iff a record exists and `remaining` is at or below
the tiered reserve threshold for the provider's nominal limit. -/
def specShouldWait (t : RateLimitTracker) (provider : String) : Bool :=
  match RateLimitTracker.get t provider with
  | none => false
  | some info => (info.remaining : ℚ) ≤ specReserveThreshold info.limit

/-! ## String helpers for the JS string methods

`String.prototype.includes` has no direct Lean counterpart, so it is
embedded as an infix test on the character lists. -/

/-- Does `s` start with `p`?  (List form of `startsWith`.) -/
def listHasPrefix : List Char → List Char → Bool
  | _, [] => true
  | [], _ :: _ => false
  | a :: s, b :: p => a == b && listHasPrefix s p

/-- Does `p` occur contiguously inside `s`?  (JS `s.includes(p)`.) -/
def listHasInfix : List Char → List Char → Bool
  | [], p => listHasPrefix [] p
  | s@(_ :: t), p => listHasPrefix s p || listHasInfix t p

/-- JS `s.includes(sub)`. -/
def jsIncludes (s sub : String) : Bool :=
  listHasInfix s.data sub.data

/-- JS `s.startsWith(p)`. -/
def jsStartsWith (s p : String) : Bool :=
  listHasPrefix s.data p.data

/-- JS `s.endsWith(p)`. -/
def jsEndsWith (s p : String) : Bool :=
  listHasPrefix s.data.reverse p.data.reverse

/-- JS `s.toLowerCase()` (character-wise lowering). -/
def jsToLower (s : String) : String :=
  ⟨s.data.map Char.toLower⟩

/-! ## RankingEngine (`stagvault/static/web/app.js`, lines 2098-2125,
identical copy at lines 780-807) -/

/-- Method `getMatchScore(item, query)`: the item's `n` (name) and `t` (tags)
fields are lowercased, a mutable `score` accumulates the name tier, then
the tag tier, then `Math.max(0, 30 - name.length)`.  The caller
(`performSearch`, line 1979) lowercases the query.  Scores are JS
numbers, modelled as `ℤ`. -/
def getMatchScore (itemName : String) (itemTags : List String)
    (query : String) : ℤ :=
  let name := jsToLower itemName
  let tags := itemTags.map jsToLower
  let score0 : ℤ := 0
  let score1 :=
    if name = query then score0 + 1000
    else if jsStartsWith name query then score0 + 500
    else if jsIncludes name (": " ++ query) || jsEndsWith name (" " ++ query)
            || jsIncludes name (" " ++ query ++ " ") then score0 + 350
    else if jsIncludes name query then score0 + 100
    else score0
  let score2 :=
    if query ∈ tags then score1 + 600
    else if tags.any (fun t => jsStartsWith t query) then score1 + 250
    else if tags.any (fun t => jsIncludes t query) then score1 + 50
    else score1
  score2 + max 0 (30 - (name.length : ℤ))

/-- The name component of the score as the specification lists it:
1000 for an exact match, 500 for a prefix match, 350 when the query
appears as a delimited word (preceded by `": "`, or preceded by a space
at the end, or surrounded by spaces), 100 for a mere substring, else 0. -/
def specNameScore (name query : String) : ℤ :=
  if name = query then 1000
  else if jsStartsWith name query then 500
  else if jsIncludes name (": " ++ query) || jsEndsWith name (" " ++ query)
          || jsIncludes name (" " ++ query ++ " ") then 350
  else if jsIncludes name query then 100
  else 0

/-- The tag component: 600 when some tag equals the query, 250 when some
tag starts with it, 50 when some tag contains it, else 0. -/
def specTagScore (tags : List String) (query : String) : ℤ :=
  if query ∈ tags then 600
  else if tags.any (fun t => jsStartsWith t query) then 250
  else if tags.any (fun t => jsIncludes t query) then 50
  else 0

/-! ## ProviderClient cache keys (`static/js/stagvault.js`, lines 671-678) -/

/-- Order on parameter pairs used by
`.sort(([a], [b]) => a.localeCompare(b))`: compare by key only.
`localeCompare` is modelled by the (total) lexicographic order on
`String`. -/
def paramKeyLE (a b : String × Option String) : Prop := a.1 ≤ b.1

instance : DecidableRel paramKeyLE :=
  fun a b => inferInstanceAs (Decidable (a.1 ≤ b.1))

instance : IsTotal (String × Option String) paramKeyLE :=
  ⟨fun a b => le_total a.1 b.1⟩

instance : IsTrans (String × Option String) paramKeyLE :=
  ⟨fun _ _ _ hab hbc => le_trans hab hbc⟩

/-- Method `_cacheKey(provider, method, params)`: drop null-valued parameters,
sort the remaining entries by key, render each as `k=v` joined with `&`,
and prefix with `provider:method:`.  Parameter values are modelled after
JS template-string coercion, i.e. as strings; `null`/`undefined` as
`none`.  JS `Array.prototype.sort` is modelled by insertion sort (any
comparison sort produces some key-ordered permutation). -/
def cacheKey (provider method : String)
    (params : List (String × Option String)) : String :=
  let filtered := params.filter (fun kv => kv.2.isSome)
  let sorted := filtered.insertionSort paramKeyLE
  let paramStr :=
    String.intercalate "&" (sorted.map (fun kv => kv.1 ++ "=" ++ kv.2.getD ""))
  provider ++ ":" ++ method ++ ":" ++ paramStr

/-! ## ProviderClient._directRequest rate-limit bookkeeping
(`static/js/stagvault.js`, lines 699-747) -/

/-- The part of a fetch `Response` that `_directRequest` inspects:
the HTTP status and the three `X-RateLimit-*` headers.  A header is
modelled post-`parseInt`: `some n` when present with numeric text,
`none` when absent (in which case `parseInt` falls back on the literal
defaults `'100'`, `'100'`, `'60'`). -/
structure HttpResponse where
  status : Nat
  rlLimit : Option Int
  rlRemaining : Option Int
  rlReset : Option Int
  deriving Repr, DecidableEq

/-- Lines 732-736: the update payload built from the response headers. -/
def headerRateLimitUpdate (r : HttpResponse) : RateLimitUpdate :=
  ⟨r.rlLimit.getD 100, r.rlRemaining.getD 100, r.rlReset.getD 60⟩

/-- The errors `_directRequest` can throw after receiving a response. -/
inductive RequestError where
  | rateLimited
  | requestFailed
  deriving Repr, DecidableEq

/-- The tail of `_directRequest` (lines 729-746), from the point the
response arrives: the tracker is updated from the headers first, then
HTTP 429 throws `Rate limit exceeded`, then any non-2xx status throws
`Request failed` (`response.ok` is status 200-299). -/
def directRequestUpdate (t : RateLimitTracker) (provider : String)
    (r : HttpResponse) (now : ℚ) : RateLimitTracker × Except RequestError Unit :=
  let t' := t.update provider (headerRateLimitUpdate r) now
  if r.status = 429 then (t', Except.error RequestError.rateLimited)
  else if ¬ (200 ≤ r.status ∧ r.status ≤ 299) then
    (t', Except.error RequestError.requestFailed)
  else (t', Except.ok ())

/-- The tracker state after a sequence of responses for one provider,
each processed by `_directRequest`. -/
def processResponses (t : RateLimitTracker) (provider : String)
    (rs : List (HttpResponse × ℚ)) : RateLimitTracker :=
  rs.foldl (fun acc pr => (directRequestUpdate acc provider pr.1 pr.2).1) t

/-! ## Concurrent provider fan-out (C7)

`app.js` `searchApiProviders` (lines 3610-3631) issues the enabled
provider searches and joins them with `Promise.all`; each provider
search (`searchPexels` etc., lines 3387-3608) wraps its own fetch in
`try/catch` and resolves with `[]` on any failure, so no rejection ever
reaches the join.  A provider call's fate is modelled as
`Except String (List α)`: `ok items` for a successful parse, `error e`
for a transport/parse failure caught by that provider's `catch`. -/

/-- One provider search as observed by `Promise.all`: the `catch`
branch turns any failure into `[]` (e.g. lines 3430-3433). -/
def settleProviderSearch {α : Type} (outcome : Except String (List α)) :
    List α :=
  match outcome with
  | Except.ok items => items
  | Except.error _ => []

/-- Method `searchApiProviders` (lines 3610-3631): run all enabled provider
searches, `Promise.all`, then `.flat()`. -/
def searchApiProviders {α : Type}
    (outcomes : List (Except String (List α))) : List α :=
  (outcomes.map settleProviderSearch).flatten

/-- The coordinator's merge (line 2035):
`[...staticResults, ...filteredApiResults]`. -/
def mergeWithStatic {α : Type} (staticResults apiResults : List α) : List α :=
  staticResults ++ apiResults

/-- Direct mode of `ProviderClient.searchImages` (`static/js/stagvault.js`,
lines 792-813): `Promise.allSettled` over the providers; a fulfilled
provider contributes its payload (images and total) under its id and
its total into `total_images`; a rejected one contributes
`{error: message, images: []}` and nothing to the total. -/
def searchImagesDirect {α : Type}
    (outcomes : List (String × Except String (List α × Nat))) :
    List (String × (List α × Nat × Option String)) × Nat :=
  (outcomes.map fun po =>
      match po.2 with
      | Except.ok v => (po.1, (v.1, v.2, (none : Option String)))
      | Except.error e => (po.1, ([], 0, some e)),
   (outcomes.map fun po =>
      match po.2 with
      | Except.ok v => v.2
      | Except.error _ => 0).sum)

/-! ## SearchCoordinator generation discipline (C2)
(`stagvault/static/web/app.js`, `performSearch`, lines 1978-2053)

Two overlapping `performSearch` invocations for queries `q1` and `q2`
are modelled as interleaved step sequences.  Each invocation has four
atomic segments separated by suspension points:

* `start`   — lines 1979-2001: capture `searchId = ++this.currentSearchId`
  (the transient loading spinner is not part of the result state);
* `static`  — lines 2005-2013: the continuation after the static-index
  fetch resolves; guarded by `searchId !== this.currentSearchId`;
  on success sets `currentResults` and displays with `apiPending = true`;
* `timer`   — lines 2018-2020: the debounce timer fires and re-checks
  the guard (no mutation either way);
* `merged`  — lines 2023-2039: the continuation after
  `searchApiProviders` resolves; guarded again; on success sets
  `currentResults` and displays with `apiPending = false`.

Timer cancellation (lines 1982-1985) only removes schedulings; letting
a cancelled continuation still run and be dropped by its guard is a
conservative superset of the real schedules. -/

/-- The interleaved atomic segments of the two invocations. -/
inductive CStep where
  | start1 | static1 | timer1 | merged1
  | start2 | static2 | timer2 | merged2
  deriving Repr, DecidableEq

/-- Coordinator state: the generation counter, each task's captured
generation (none until its `start` runs), and the result state
(`this.currentResults` and the displayed result list, each recorded as
the query it came from together with its `apiPending` flag). -/
structure CoordState where
  currentSearchId : Nat
  cap1 : Option Nat
  cap2 : Option Nat
  currentResults : Option (String × Bool)
  displayed : Option (String × Bool)
  deriving Repr, DecidableEq

/-- One atomic segment. -/
def stepFn (q1 q2 : String) (s : CoordState) : CStep → CoordState
  | CStep.start1 =>
      { s with currentSearchId := s.currentSearchId + 1
               cap1 := some (s.currentSearchId + 1) }
  | CStep.static1 =>
      match s.cap1 with
      | some g =>
          if g = s.currentSearchId then
            { s with currentResults := some (q1, true)
                     displayed := some (q1, true) }
          else s
      | none => s
  | CStep.timer1 => s
  | CStep.merged1 =>
      match s.cap1 with
      | some g =>
          if g = s.currentSearchId then
            { s with currentResults := some (q1, false)
                     displayed := some (q1, false) }
          else s
      | none => s
  | CStep.start2 =>
      { s with currentSearchId := s.currentSearchId + 1
               cap2 := some (s.currentSearchId + 1) }
  | CStep.static2 =>
      match s.cap2 with
      | some g =>
          if g = s.currentSearchId then
            { s with currentResults := some (q2, true)
                     displayed := some (q2, true) }
          else s
      | none => s
  | CStep.timer2 => s
  | CStep.merged2 =>
      match s.cap2 with
      | some g =>
          if g = s.currentSearchId then
            { s with currentResults := some (q2, false)
                     displayed := some (q2, false) }
          else s
      | none => s

/-- Execute a schedule. -/
def runSched (q1 q2 : String) : CoordState → List CStep → CoordState
  | s, [] => s
  | s, c :: rest => runSched q1 q2 (stepFn q1 q2 s c) rest

/-- Does a step belong to the first invocation? -/
def isT1 : CStep → Bool
  | CStep.start1 | CStep.static1 | CStep.timer1 | CStep.merged1 => true
  | _ => false

/-- The program order of the first invocation's segments. -/
def t1Seq : List CStep := [CStep.start1, CStep.static1, CStep.timer1, CStep.merged1]

/-- The program order of the second invocation's segments. -/
def t2Seq : List CStep := [CStep.start2, CStep.static2, CStep.timer2, CStep.merged2]

/-- A schedule is an interleaving of the two invocations: projecting to
either task yields that task's program order. -/
def validSchedule (sched : List CStep) : Prop :=
  sched.filter isT1 = t1Seq ∧ sched.filter (fun c => !(isT1 c)) = t2Seq

/-- The coordinator state before any search. -/
def initCoord (g0 : Nat) : CoordState := ⟨g0, none, none, none, none⟩

/-- A one-entry cache whose entry expires exactly at `expires = 100`;
used to probe `get` at the expiry boundary. -/
def cacheBoundary : ProviderCache :=
  { maxSize := 500
    entries := [("k", ⟨"v", 100, 0⟩)]
    index := ⟨["k"], [("k", 0)]⟩ }

/-! # Theorems -/

/-! ## Association-list lemmas -/

theorem assocGet_assocSet_self {α : Type} (m : List (String × α))
    (k : String) (v : α) : assocGet (assocSet m k v) k = some v := by
  induction m with
  | nil => simp [assocSet, assocGet]
  | cons hd tl ih =>
      obtain ⟨k', v'⟩ := hd
      by_cases h : k' = k <;> simp [assocSet, assocGet, h, ih]

theorem assocGet_assocSet_ne {α : Type} (m : List (String × α))
    (k k' : String) (v : α) (h : k' ≠ k) :
    assocGet (assocSet m k v) k' = assocGet m k' := by
  induction m with
  | nil => simp [assocSet, assocGet, Ne.symm h]
  | cons hd tl ih =>
      obtain ⟨k'', v''⟩ := hd
      by_cases hk : k'' = k <;> by_cases hk' : k'' = k' <;>
        simp_all [assocSet, assocGet]

theorem assocGet_assocDel_self {α : Type} (m : List (String × α))
    (hm : (m.map Prod.fst).Nodup) (k : String) :
    assocGet (assocDel m k) k = none := by
  induction m with
  | nil => simp [assocDel, assocGet]
  | cons hd tl ih =>
      obtain ⟨k', v'⟩ := hd
      simp only [List.map_cons, List.nodup_cons] at hm
      by_cases h : k' = k
      · subst h
        simp only [assocDel, if_pos rfl]
        clear ih
        induction tl with
        | nil => simp [assocGet]
        | cons hd2 tl2 ih2 =>
            obtain ⟨k2, v2⟩ := hd2
            simp only [List.map_cons, List.mem_cons, List.nodup_cons] at hm
            have hk2 : k2 ≠ k' := fun hh => hm.1 (Or.inl hh.symm)
            simp only [assocGet, if_neg hk2]
            exact ih2 ⟨fun hmem => hm.1 (Or.inr hmem), hm.2.2⟩
      · simp only [assocDel, if_neg h, assocGet, if_neg h]
        exact ih hm.2

/-! ## C1 — shouldWait's reserve threshold -/

/-- C1 counterexample: for the record `{limit: 100, remaining: 5}` the
spec's tiered reserve policy (5% of a limit of 100, i.e. threshold 5)
demands `shouldWait = true`, but the source's `shouldWait`
(`remaining <= 1`, line 600) returns `false`.  The claimed
threshold-scaling policy is not what the code computes. -/
theorem C1_reserve_threshold_counterexample :
    RateLimitTracker.shouldWait
        (RateLimitTracker.update RateLimitTracker.empty "pixabay" ⟨100, 5, 60⟩ 0)
        "pixabay" = false ∧
    specShouldWait
        (RateLimitTracker.update RateLimitTracker.empty "pixabay" ⟨100, 5, 60⟩ 0)
        "pixabay" = true := by
  constructor
  · simp [RateLimitTracker.shouldWait, RateLimitTracker.update,
          RateLimitTracker.empty, assocGet]
  · simp [specShouldWait, RateLimitTracker.get, RateLimitTracker.update,
          RateLimitTracker.empty, assocGet, specReserveThreshold]
    norm_num

/-- C1 (amended): `shouldWait(providerId)` returns true iff a rate-limit
record exists for the provider and its `remaining` count is at most 1 —
a fixed reserve of one request, independent of the provider's nominal
limit (`static/js/stagvault.js`, lines 597-601). -/
theorem C1_shouldWait_fixed_threshold (t : RateLimitTracker) (p : String) :
    RateLimitTracker.shouldWait t p = true ↔
      ∃ info, RateLimitTracker.get t p = some info ∧ info.remaining ≤ 1 := by
  unfold RateLimitTracker.shouldWait RateLimitTracker.get
  cases assocGet t.limits p with
  | none => simp
  | some info => simp

/-- C1 witness: the amended iff applied to a concrete tracker with
`remaining = 1`. -/
theorem C1_witness :
    RateLimitTracker.shouldWait
        (RateLimitTracker.update RateLimitTracker.empty "pexels" ⟨200, 1, 60⟩ 0)
        "pexels" = true :=
  (C1_shouldWait_fixed_threshold _ "pexels").mpr
    ⟨⟨200, 1, 60, 0⟩, by simp [RateLimitTracker.get, RateLimitTracker.update,
        RateLimitTracker.empty, assocGet], by norm_num⟩

/-! ## C9 — waitTime -/

/-- C9: `waitTime` returns 0 whenever `shouldWait` is false (including
when no record exists); otherwise it returns
`max(0, reset_seconds − secondsSince(updatedAt)) * 1000`; the result is
always nonnegative; and in the spec's scenario (`remaining = 1`,
`limit = 100`) `shouldWait` is true and `waitTime` is nonnegative
(`static/js/stagvault.js`, lines 603-609). -/
theorem C9_waitTime_spec :
    (∀ (t : RateLimitTracker) (p : String) (now : ℚ),
       RateLimitTracker.shouldWait t p = false →
       RateLimitTracker.waitTime t p now = 0) ∧
    (∀ (t : RateLimitTracker) (p : String) (now : ℚ),
       0 ≤ RateLimitTracker.waitTime t p now) ∧
    (∀ (t : RateLimitTracker) (p : String) (now : ℚ) (info : RateLimitInfo),
       RateLimitTracker.get t p = some info →
       RateLimitTracker.shouldWait t p = true →
       RateLimitTracker.waitTime t p now =
         max 0 ((info.reset_seconds : ℚ) - (now - info.updatedAt) / 1000) * 1000) ∧
    (RateLimitTracker.shouldWait
        (RateLimitTracker.update RateLimitTracker.empty "pexels" ⟨100, 1, 30⟩ 0)
        "pexels" = true ∧
     ∀ now : ℚ, 0 ≤ RateLimitTracker.waitTime
        (RateLimitTracker.update RateLimitTracker.empty "pexels" ⟨100, 1, 30⟩ 0)
        "pexels" now) := by
  have hnonneg : ∀ (t : RateLimitTracker) (p : String) (now : ℚ),
      0 ≤ RateLimitTracker.waitTime t p now := by
    intro t p now
    unfold RateLimitTracker.waitTime
    cases assocGet t.limits p with
    | none => exact le_refl 0
    | some info =>
        dsimp only
        split
        · exact le_refl 0
        · exact mul_nonneg (le_max_left 0 _) (by norm_num)
  refine ⟨?_, hnonneg, ?_, ?_, fun now => hnonneg _ _ now⟩
  · intro t p now h
    unfold RateLimitTracker.waitTime
    cases hg : assocGet t.limits p with
    | none => rfl
    | some info => simp [h]
  · intro t p now info hget hwait
    unfold RateLimitTracker.waitTime
    unfold RateLimitTracker.get at hget
    rw [hget]
    simp [hwait]
  · simp [RateLimitTracker.shouldWait, RateLimitTracker.update,
          RateLimitTracker.empty, assocGet]

/-- C9 witness: applied to the empty tracker (no record ⇒ wait 0) and to
the spec's `remaining = 1` scenario. -/
theorem C9_witness :
    RateLimitTracker.waitTime RateLimitTracker.empty "pixabay" 12345 = 0 ∧
    0 ≤ RateLimitTracker.waitTime
        (RateLimitTracker.update RateLimitTracker.empty "pexels" ⟨100, 1, 30⟩ 0)
        "pexels" 5000 :=
  ⟨C9_waitTime_spec.1 RateLimitTracker.empty "pixabay" 12345 rfl,
   C9_waitTime_spec.2.2.2.2 5000⟩

/-! ## C10 — rate-limit bookkeeping on every response -/

/-- The first component of `_directRequest`'s outcome is always the
header-updated tracker, whichever branch throws. -/
theorem directRequestUpdate_fst (t : RateLimitTracker) (p : String)
    (r : HttpResponse) (now : ℚ) :
    (directRequestUpdate t p r now).1 =
      RateLimitTracker.update t p (headerRateLimitUpdate r) now := by
  unfold directRequestUpdate
  dsimp only
  split
  · rfl
  · split <;> rfl

/-- C10: after every response processed by `_directRequest` — including
an HTTP 429, before the error is thrown — the provider's tracker record
is overwritten from the `X-RateLimit-*` headers, with defaults
`limit = 100`, `remaining = 100`, `reset_seconds = 60` for absent
headers; consequently a provider whose responses never carry the
remaining header always has `remaining = 100` recorded and `shouldWait`
never becomes true (`static/js/stagvault.js`, lines 729-747 and
597-601). -/
theorem C10_rate_limit_update_on_every_response :
    (∀ (t : RateLimitTracker) (p : String) (r : HttpResponse) (now : ℚ),
       RateLimitTracker.get (directRequestUpdate t p r now).1 p =
         some ⟨r.rlLimit.getD 100, r.rlRemaining.getD 100, r.rlReset.getD 60, now⟩) ∧
    (∀ (t : RateLimitTracker) (p : String) (r : HttpResponse) (now : ℚ),
       r.status = 429 →
       (directRequestUpdate t p r now).2 =
         Except.error RequestError.rateLimited ∧
       RateLimitTracker.get (directRequestUpdate t p r now).1 p =
         some ⟨r.rlLimit.getD 100, r.rlRemaining.getD 100, r.rlReset.getD 60, now⟩) ∧
    (∀ (p : String) (rs : List (HttpResponse × ℚ)),
       (∀ pr ∈ rs, pr.1.rlRemaining = none) →
       (∀ info,
          RateLimitTracker.get (processResponses RateLimitTracker.empty p rs) p =
            some info → info.remaining = 100) ∧
       RateLimitTracker.shouldWait
         (processResponses RateLimitTracker.empty p rs) p = false) := by
  have hget : ∀ (t : RateLimitTracker) (p : String) (r : HttpResponse) (now : ℚ),
      RateLimitTracker.get (directRequestUpdate t p r now).1 p =
        some ⟨r.rlLimit.getD 100, r.rlRemaining.getD 100, r.rlReset.getD 60, now⟩ := by
    intro t p r now
    rw [directRequestUpdate_fst]
    simp [RateLimitTracker.get, RateLimitTracker.update, headerRateLimitUpdate,
          assocGet_assocSet_self]
  have hinv : ∀ (rs : List (HttpResponse × ℚ)) (t : RateLimitTracker) (p : String),
      (∀ pr ∈ rs, pr.1.rlRemaining = none) →
      (∀ info, RateLimitTracker.get t p = some info → info.remaining = 100) →
      ∀ info, RateLimitTracker.get (processResponses t p rs) p = some info →
        info.remaining = 100 := by
    intro rs
    induction rs with
    | nil => intro t p _ h info hg; exact h info hg
    | cons pr rs ih =>
        intro t p hnone h info hg
        have hstep : ∀ info2,
            RateLimitTracker.get (directRequestUpdate t p pr.1 pr.2).1 p =
              some info2 → info2.remaining = 100 := by
          intro info2 hg2
          rw [hget t p pr.1 pr.2] at hg2
          have hrem : pr.1.rlRemaining = none := hnone pr (List.mem_cons_self _ _)
          rw [hrem] at hg2
          cases hg2
          rfl
        exact ih (directRequestUpdate t p pr.1 pr.2).1 p
          (fun x hx => hnone x (List.mem_cons_of_mem _ hx)) hstep info hg
  refine ⟨hget, fun t p r now h429 => ⟨?_, hget t p r now⟩, fun p rs hnone => ?_⟩
  · unfold directRequestUpdate
    simp [h429]
  · have hall : ∀ info,
        RateLimitTracker.get (processResponses RateLimitTracker.empty p rs) p =
          some info → info.remaining = 100 := by
      refine hinv rs RateLimitTracker.empty p hnone ?_
      intro info hg
      simp [RateLimitTracker.get, RateLimitTracker.empty, assocGet] at hg
    refine ⟨hall, ?_⟩
    unfold RateLimitTracker.shouldWait
    cases hg : assocGet (processResponses RateLimitTracker.empty p rs).limits p with
    | none => rfl
    | some info =>
        have : info.remaining = 100 := hall info hg
        simp [this]

/-- C10 witness: a 429 response with no rate-limit headers records the
defaults and still throws `RateLimited`. -/
theorem C10_witness :
    (directRequestUpdate RateLimitTracker.empty "pixabay" ⟨429, none, none, none⟩ 0).2 =
      Except.error RequestError.rateLimited ∧
    RateLimitTracker.get
        (directRequestUpdate RateLimitTracker.empty "pixabay" ⟨429, none, none, none⟩ 0).1
        "pixabay" = some ⟨100, 100, 60, 0⟩ :=
  C10_rate_limit_update_on_every_response.2.1
    RateLimitTracker.empty "pixabay" ⟨429, none, none, none⟩ 0 rfl

/-! ## C4 — eviction and the capacity invariant -/

/-- C4 failing input: `cacheDemo` is a cache with `maxSize = 4` holding
exactly 4 keys, and `set` of the fresh key `"e"` triggers
`_evict(floor(4/4) = 1)`.  The eviction removes the oldest entry, but
`set` then stores the index snapshot it read *before* the eviction
(line 505) with the new key appended, so the stored index afterwards
has 5 keys — the live-entry count exceeds `maxSize` immediately after
`set`, falsifying `count(liveEntries) ≤ capacity`.  Moreover the
removal loop of `_evict` splices the very array it is iterating, so on
`cacheDemo8` (8 keys, timestamps 10..80) evicting 2 victims removes the
keys with timestamps 10 and 30 while the second-oldest key `k1`
(timestamp 20) survives — not the two oldest. -/
theorem C4_capacity_invariant_code_bug :
    cacheDemo.maxSize = 4 ∧
    cacheDemo.index.keys.length = 4 ∧
    cacheDemoAfterSet.index.keys = ["a", "b", "c", "d", "e"] ∧
    ¬ (cacheDemoAfterSet.index.keys.length ≤ cacheDemoAfterSet.maxSize) ∧
    (ProviderCache.evict cacheDemo8 2).index.keys =
      ["k1", "k3", "k4", "k5", "k6", "k7"] ∧
    tsOf cacheDemo8.index "k1" < tsOf cacheDemo8.index "k2" ∧
    "k1" ∈ (ProviderCache.evict cacheDemo8 2).index.keys ∧
    "k2" ∉ (ProviderCache.evict cacheDemo8 2).index.keys := by
  decide

/-! ## C5 — index ↔ entry correspondence -/

/-- C5 failing input: immediately after `cacheDemo.set "e" ...` (a plain
successful `set`, no storage failure involved) the evicted key `"a"` is
still listed in the stored cache index, but its cache entry has been
removed from storage — the index and the entry set disagree, falsifying
the claimed invariant. -/
theorem C5_index_entry_mismatch_code_bug :
    "a" ∈ cacheDemoAfterSet.index.keys ∧
    assocGet cacheDemoAfterSet.entries "a" = none ∧
    ¬ (∀ k, k ∈ cacheDemoAfterSet.index.keys ↔
          (assocGet cacheDemoAfterSet.entries k).isSome = true) := by
  refine ⟨by decide, by decide, fun h => ?_⟩
  have := (h "a").mp (by decide)
  simp [show assocGet cacheDemoAfterSet.entries "a" = none from by decide] at this

/-! ## C6 — get / TTL semantics -/

/-- C6 counterexample: at `Date.now()` exactly equal to the entry's
`expires` (here both 100) the expiration time is *not* in the future,
yet `get` returns the stored value — line 486 treats an entry as
expired only when `Date.now() > expires`.  The claimed "if and only if
… still in the future" fails at the boundary. -/
theorem C6_expiry_boundary_counterexample :
    (cacheBoundary.get "k" 100).1 = some "v" ∧
    assocGet cacheBoundary.entries "k" = some ⟨"v", 100, 0⟩ ∧
    ¬ (100 < (100 : Nat)) := by
  decide

/-- C6 (amended): `get(key)` returns the stored value iff an entry
exists and `now ≤ expires` (inclusive at the boundary); an expired
entry (`now > expires`) is deleted — entry and index record — as a side
effect of the `get` that observes it; an unexpired `get` leaves the
entry store untouched (in particular `expiresAt` is unchanged) and a
second `get` returns the same value; and an entry inserted with
`ttl = T` at `now₀` is retrievable at any `now ≤ now₀ + T` and absent
at any `now > now₀ + T` (`static/js/stagvault.js`, lines 478-535). -/
theorem C6_get_ttl_semantics :
    (∀ (c : ProviderCache) (key : String) (now : Nat) (v : String),
       (c.get key now).1 = some v ↔
         ∃ e, assocGet c.entries key = some e ∧ e.value = v ∧
              now ≤ e.expires) ∧
    (∀ (c : ProviderCache) (key : String) (now : Nat) (e : EntryData),
       (c.entries.map Prod.fst).Nodup → c.index.keys.Nodup →
       assocGet c.entries key = some e → e.expires < now →
       (c.get key now).1 = none ∧
       assocGet (c.get key now).2.entries key = none ∧
       key ∉ (c.get key now).2.index.keys) ∧
    (∀ (c : ProviderCache) (key : String) (now : Nat) (v : String),
       (c.get key now).1 = some v →
       (c.get key now).2.entries = c.entries ∧
       ((c.get key now).2.get key now).1 = some v) ∧
    (∀ (c : ProviderCache) (key v : String) (ttl now0 now : Nat),
       ((c.set key v ttl now0).get key now).1 =
         if now ≤ now0 + ttl then some v else none) := by
  have hiff : ∀ (c : ProviderCache) (key : String) (now : Nat) (v : String),
      (c.get key now).1 = some v ↔
        ∃ e, assocGet c.entries key = some e ∧ e.value = v ∧
             now ≤ e.expires := by
    intro c key now v
    unfold ProviderCache.get
    cases hg : assocGet c.entries key with
    | none => simp
    | some e =>
        dsimp only
        by_cases hexp : now > e.expires
        · rw [if_pos hexp]
          constructor
          · intro h; exact absurd h (by simp)
          · rintro ⟨e', he', hv, hle⟩
            injection he' with he2
            subst he2
            omega
        · rw [if_neg hexp]
          constructor
          · intro h
            injection h with hv
            exact ⟨e, rfl, hv, by omega⟩
          · rintro ⟨e', he', hv, _⟩
            injection he' with he2
            subst he2
            simp [hv]
  refine ⟨hiff, ?_, ?_, ?_⟩
  · intro c key now e hnodup hnodupIdx hg hexp
    unfold ProviderCache.get
    rw [hg]
    dsimp only
    rw [if_pos (show now > e.expires from hexp)]
    refine ⟨rfl, ?_, ?_⟩
    · unfold ProviderCache.delete
      dsimp only
      split <;> exact assocGet_assocDel_self c.entries hnodup key
    · unfold ProviderCache.delete
      dsimp only
      split
      · intro hk
        rw [List.Nodup.mem_erase_iff hnodupIdx] at hk
        exact hk.1 rfl
      · next hmem => exact hmem
  · intro c key now v h
    unfold ProviderCache.get at h ⊢
    cases hg : assocGet c.entries key with
    | none =>
        rw [hg] at h
        exact absurd h (by simp)
    | some e =>
        rw [hg] at h
        dsimp only at h
        by_cases hexp : now > e.expires
        · rw [if_pos hexp] at h
          exact absurd h (by simp)
        · rw [if_neg hexp] at h
          dsimp only
          rw [if_neg hexp]
          dsimp only
          rw [hg]
          dsimp only
          rw [if_neg hexp]
          exact ⟨rfl, h⟩
  · intro c key v ttl now0 now
    have he : assocGet (c.set key v ttl now0).entries key =
        some ⟨v, now0 + ttl, now0⟩ := by
      unfold ProviderCache.set
      dsimp only
      exact assocGet_assocSet_self _ _ _
    unfold ProviderCache.get
    rw [he]
    dsimp only
    by_cases hle : now ≤ now0 + ttl
    · rw [if_neg (by omega), if_pos hle]
    · rw [if_pos (by omega), if_neg hle]

/-- C6 witness: the amended semantics applied to the concrete one-entry
cache, one tick past expiry — `get` deletes entry and index record. -/
theorem C6_witness :
    (cacheBoundary.get "k" 101).1 = none ∧
    assocGet (cacheBoundary.get "k" 101).2.entries "k" = none ∧
    "k" ∉ (cacheBoundary.get "k" 101).2.index.keys :=
  C6_get_ttl_semantics.2.1 cacheBoundary "k" 101 ⟨"v", 100, 0⟩
    (by decide) (by decide) (by decide) (by decide)

/-! ## C8 — cache-key stability under parameter reordering -/

/-- Two key-sorted permutations of a parameter list with pairwise
distinct keys are equal. -/
theorem sorted_params_eq : ∀ (s1 s2 : List (String × Option String)),
    s1.Perm s2 → List.Sorted paramKeyLE s1 → List.Sorted paramKeyLE s2 →
    (s1.map Prod.fst).Nodup → s1 = s2 := by
  intro s1
  induction s1 with
  | nil =>
      intro s2 hp _ _ _
      exact (List.Perm.eq_nil hp.symm).symm
  | cons a t1 ih =>
      intro s2 hp hs1 hs2 hnd
      cases s2 with
      | nil => exact absurd (List.Perm.eq_nil hp) (by simp)
      | cons b t2 =>
          by_cases hab : a = b
          · subst hab
            have ht : t1 = t2 :=
              ih t2 hp.cons_inv hs1.of_cons hs2.of_cons
                (by simp only [List.map_cons, List.nodup_cons] at hnd
                    exact hnd.2)
            rw [ht]
          · exfalso
            have ha2 : a ∈ t2 := by
              rcases List.mem_cons.mp (hp.subset (List.mem_cons_self a t1)) with h | h
              · exact absurd h hab
              · exact h
            have hb1 : b ∈ t1 := by
              rcases List.mem_cons.mp (hp.symm.subset (List.mem_cons_self b t2)) with h | h
              · exact absurd h.symm hab
              · exact h
            have h1 : paramKeyLE a b := List.rel_of_sorted_cons hs1 b hb1
            have h2 : paramKeyLE b a := List.rel_of_sorted_cons hs2 a ha2
            have hk : a.1 = b.1 := le_antisymm h1 h2
            simp only [List.map_cons, List.nodup_cons] at hnd
            exact hnd.1 (hk ▸ List.mem_map_of_mem Prod.fst hb1)

/-- C8: `_cacheKey(provider, method, params)` is invariant under
reordering of the parameter entries: for any two parameter lists with
the same bindings (a permutation) and pairwise distinct keys, the
computed cache keys are identical, because the non-null entries are
sorted by key before serialisation
(`static/js/stagvault.js`, lines 671-678). -/
theorem C8_cache_key_param_order (provider method : String)
    (l1 l2 : List (String × Option String))
    (hperm : l1.Perm l2) (hnd : (l1.map Prod.fst).Nodup) :
    cacheKey provider method l1 = cacheKey provider method l2 := by
  unfold cacheKey
  dsimp only
  have hfperm : (l1.filter (fun kv => kv.2.isSome)).Perm
      (l2.filter (fun kv => kv.2.isSome)) := hperm.filter _
  have hnd1 : ((l1.filter (fun kv => kv.2.isSome)).map Prod.fst).Nodup :=
    List.Nodup.sublist ((l1.filter_sublist (p := fun kv => kv.2.isSome)).map Prod.fst) hnd
  have hsortperm :
      ((l1.filter (fun kv => kv.2.isSome)).insertionSort paramKeyLE).Perm
        ((l2.filter (fun kv => kv.2.isSome)).insertionSort paramKeyLE) :=
    ((List.perm_insertionSort paramKeyLE _).trans hfperm).trans
      (List.perm_insertionSort paramKeyLE _).symm
  have hndsort :
      (((l1.filter (fun kv => kv.2.isSome)).insertionSort paramKeyLE).map
        Prod.fst).Nodup :=
    ((List.perm_insertionSort paramKeyLE _).symm.map Prod.fst).nodup hnd1
  have hsorted := sorted_params_eq _ _ hsortperm
    (List.sorted_insertionSort paramKeyLE _)
    (List.sorted_insertionSort paramKeyLE _) hndsort
  rw [hsorted]

/-- C8 witness: the spec's scenario `{page: 1, q: "sunset"}` vs
`{q: "sunset", page: 1}` yields identical cache keys. -/
theorem C8_witness :
    cacheKey "multi" "searchImages" [("page", some "1"), ("q", some "sunset")] =
      cacheKey "multi" "searchImages" [("q", some "sunset"), ("page", some "1")] :=
  C8_cache_key_param_order "multi" "searchImages" _ _ (by decide) (by decide)

/-! ## C3 — ranking score -/

/-- The accumulator form of `getMatchScore` equals the sum of the
spec's name component, tag component and length bonus. -/
theorem getMatchScore_eq (itemName : String) (itemTags : List String)
    (query : String) :
    getMatchScore itemName itemTags query =
      specNameScore (jsToLower itemName) query +
      specTagScore (itemTags.map jsToLower) query +
      max 0 (30 - ((jsToLower itemName).length : ℤ)) := by
  unfold getMatchScore specNameScore specTagScore
  dsimp only
  split_ifs <;> ring

/-- C3: the ranking score is deterministic (a pure function of the item
fields and the query) and decomposes additively into the tiered name
component, the tiered tag component, and the tie-break bonus
`max(0, 30 − nameLength)`; consequently an item with an exact tag match
and no name match always outscores an item whose name merely starts
with the query (and has no tag match), since the 600-tier beats the
500-tier by more than the 30-point bonus cap
(`stagvault/static/web/app.js`, lines 2098-2125 and 780-807). -/
theorem C3_ranking_score_decomposition :
    (∀ (itemName : String) (itemTags : List String) (query : String),
       getMatchScore itemName itemTags query =
         specNameScore (jsToLower itemName) query +
         specTagScore (itemTags.map jsToLower) query +
         max 0 (30 - ((jsToLower itemName).length : ℤ))) ∧
    (∀ (n1 : String) (t1 : List String) (n2 : String) (t2 : List String)
       (q : String),
       q ∈ t1.map jsToLower →
       specNameScore (jsToLower n1) q = 0 →
       specTagScore (t2.map jsToLower) q = 0 →
       jsToLower n2 ≠ q →
       jsStartsWith (jsToLower n2) q = true →
       getMatchScore n2 t2 q < getMatchScore n1 t1 q) := by
  refine ⟨getMatchScore_eq, ?_⟩
  intro n1 t1 n2 t2 q htag1 hname1 htag2 hne hsw
  rw [getMatchScore_eq, getMatchScore_eq, hname1, htag2]
  have htag1' : specTagScore (t1.map jsToLower) q = 600 := by
    unfold specTagScore
    rw [if_pos htag1]
  have hname2' : specNameScore (jsToLower n2) q = 500 := by
    unfold specNameScore
    rw [if_neg hne, if_pos hsw]
  rw [htag1', hname2']
  have hb2 : max 0 (30 - ((jsToLower n2).length : ℤ)) ≤ 30 :=
    max_le (by norm_num) (by omega)
  have hb1 : (0 : ℤ) ≤ max 0 (30 - ((jsToLower n1).length : ℤ)) := le_max_left _ _
  linarith

/-- C3 witness: the spec's §8 scenario for query `"us"` — the item
`{name: "flag: United States", tags: ["us"]}` (exact tag match, no name
match) outscores `{name: "user", tags: []}` (name starts with the
query). -/
theorem C3_witness :
    getMatchScore "user" [] "us" < getMatchScore "flag: United States" ["us"] "us" :=
  C3_ranking_score_decomposition.2 "flag: United States" ["us"] "user" [] "us"
    (by decide) (by decide) (by decide) (by decide) (by decide)

/-! ## C7 — failure isolation in the concurrent fan-out -/

/-- C7: the fan-out is total — every provider failure is absorbed by
that provider's own `catch` (resolving `[]`), so the join never
rejects; the merged list is the local baseline followed by exactly the
successful providers' items (failed providers contribute nothing); and
in `ProviderClient.searchImages` direct mode a fulfilled provider's
payload is kept under its id while a rejected provider is recorded as
`{error, images: []}` (`stagvault/static/web/app.js`, lines 1978-2053
and 3387-3631; `static/js/stagvault.js`, lines 792-813). -/
theorem C7_provider_failure_isolation :
    (∀ (α : Type) (outcomes : List (Except String (List α))),
       searchApiProviders outcomes =
         (outcomes.filterMap Except.toOption).flatten) ∧
    (∀ (α : Type) (staticResults : List α)
       (outcomes : List (Except String (List α))),
       mergeWithStatic staticResults (searchApiProviders outcomes) =
         staticResults ++ (outcomes.filterMap Except.toOption).flatten) ∧
    (∀ (α : Type) (staticResults : List α)
       (outcomes : List (Except String (List α))) (x : α),
       x ∈ mergeWithStatic staticResults (searchApiProviders outcomes) ↔
         x ∈ staticResults ∨ ∃ items, Except.ok items ∈ outcomes ∧ x ∈ items) ∧
    (∀ (α : Type) (outcomes : List (String × Except String (List α × Nat)))
       (p : String),
       (∀ (images : List α) (total : Nat),
          (p, Except.ok (images, total)) ∈ outcomes →
          (p, (images, total, (none : Option String))) ∈
            (searchImagesDirect outcomes).1) ∧
       (∀ e, (p, Except.error e) ∈ outcomes →
          (p, (([] : List α), 0, some e)) ∈ (searchImagesDirect outcomes).1)) := by
  have h1 : ∀ (α : Type) (outcomes : List (Except String (List α))),
      searchApiProviders outcomes =
        (outcomes.filterMap Except.toOption).flatten := by
    intro α outcomes
    induction outcomes with
    | nil => rfl
    | cons o rest ih =>
        cases o with
        | ok items =>
            simp [searchApiProviders, settleProviderSearch, Except.toOption,
                  List.filterMap_cons] at ih ⊢
            exact ih
        | error e =>
            simp [searchApiProviders, settleProviderSearch, Except.toOption,
                  List.filterMap_cons] at ih ⊢
            exact ih
  have hmem : ∀ (α : Type) (outcomes : List (Except String (List α))) (x : α),
      x ∈ (outcomes.filterMap Except.toOption).flatten ↔
        ∃ items, Except.ok items ∈ outcomes ∧ x ∈ items := by
    intro α outcomes x
    simp only [List.mem_flatten, List.mem_filterMap]
    constructor
    · rintro ⟨l, ⟨o, ho, hoo⟩, hx⟩
      cases o with
      | ok items =>
          simp only [Except.toOption, Option.some.injEq] at hoo
          subst hoo
          exact ⟨_, ho, hx⟩
      | error e => simp [Except.toOption] at hoo
    · rintro ⟨items, ho, hx⟩
      exact ⟨items, ⟨Except.ok items, ho, rfl⟩, hx⟩
  refine ⟨h1, ?_, ?_, ?_⟩
  · intro α staticResults outcomes
    unfold mergeWithStatic
    rw [h1]
  · intro α staticResults outcomes x
    unfold mergeWithStatic
    rw [h1, List.mem_append, hmem]
  · intro α outcomes p
    constructor
    · intro images total h
      exact List.mem_map.mpr ⟨(p, Except.ok (images, total)), h, rfl⟩
    · intro e h
      exact List.mem_map.mpr ⟨(p, Except.error e), h, rfl⟩

/-- C7 witness: one of two providers fails; the settled result keeps the
successful payload and records the failure as `{error, images: []}`. -/
theorem C7_witness :
    ("pixabay", ([1, 2], 5, (none : Option String))) ∈
      (searchImagesDirect [("pixabay", Except.ok ([1, 2], 5)),
                           ("pexels", Except.error "network down")]).1 ∧
    ("pexels", (([] : List ℕ), 0, some "network down")) ∈
      (searchImagesDirect [("pixabay", Except.ok ([1, 2], 5)),
                           ("pexels", Except.error "network down")]).1 :=
  ⟨(C7_provider_failure_isolation.2.2.2 ℕ _ "pixabay").1 [1, 2] 5 (by simp),
   (C7_provider_failure_isolation.2.2.2 ℕ _ "pexels").2 "network down" (by simp)⟩

/-! ## C2 — generation-drop invariant -/

/-- A task-1 continuation whose captured generation differs from the
current one mutates nothing. -/
theorem stepFn_t1_stale (q1 q2 : String) (s : CoordState) (g : Nat)
    (hcap : s.cap1 = some g) (hne : g ≠ s.currentSearchId) :
    stepFn q1 q2 s CStep.static1 = s ∧
    stepFn q1 q2 s CStep.timer1 = s ∧
    stepFn q1 q2 s CStep.merged1 = s := by
  refine ⟨?_, rfl, ?_⟩ <;>
    · show (match s.cap1 with
        | some g => if g = s.currentSearchId then _ else s
        | none => s) = s
      rw [hcap]
      dsimp only
      rw [if_neg hne]

/-- Running a schedule distributes over list append. -/
theorem runSched_append (q1 q2 : String) (s : CoordState)
    (xs ys : List CStep) :
    runSched q1 q2 s (xs ++ ys) = runSched q1 q2 (runSched q1 q2 s xs) ys := by
  induction xs generalizing s with
  | nil => rfl
  | cons x xs ih => simp [runSched, ih]

/-- Core induction for C2: from any state whose generation counter
equals task 2's captured generation while task 1's captured generation
is stale, running the remaining schedule (task 2's residue interleaved
with arbitrary stale task-1 steps, `start1` excluded) ends with task
2's final merged display. -/
theorem runT2Aux (q1 q2 : String) :
    ∀ (b : List CStep) (s : CoordState) (c1 c2 : Nat),
      s.cap1 = some c1 → s.cap2 = some c2 → s.currentSearchId = c2 →
      c1 ≠ c2 → CStep.start1 ∉ b →
      ((b.filter (fun c => !(isT1 c)) =
          [CStep.static2, CStep.timer2, CStep.merged2] →
         (runSched q1 q2 s b).displayed = some (q2, false) ∧
         (runSched q1 q2 s b).currentResults = some (q2, false)) ∧
       (b.filter (fun c => !(isT1 c)) = [CStep.timer2, CStep.merged2] →
         (runSched q1 q2 s b).displayed = some (q2, false) ∧
         (runSched q1 q2 s b).currentResults = some (q2, false)) ∧
       (b.filter (fun c => !(isT1 c)) = [CStep.merged2] →
         (runSched q1 q2 s b).displayed = some (q2, false) ∧
         (runSched q1 q2 s b).currentResults = some (q2, false)) ∧
       (b.filter (fun c => !(isT1 c)) = [] → runSched q1 q2 s b = s)) := by
  intro b
  induction b with
  | nil =>
      intro s c1 c2 _ _ _ _ _
      refine ⟨?_, ?_, ?_, fun _ => rfl⟩ <;> · intro h; simp at h
  | cons c b ih =>
      intro s c1 c2 hcap1 hcap2 hid hne hnotin
      have hnotin' : CStep.start1 ∉ b := fun h => hnotin (List.mem_cons_of_mem _ h)
      have hstale := stepFn_t1_stale q1 q2 s c1 hcap1 (by omega)
      cases c with
      | start1 => exact absurd (List.mem_cons_self _ _) hnotin
      | static1 =>
          have hf : List.filter (fun c => !(isT1 c)) (CStep.static1 :: b)
              = List.filter (fun c => !(isT1 c)) b := by simp [isT1]
          have hr : runSched q1 q2 s (CStep.static1 :: b) = runSched q1 q2 s b := by
            simp [runSched, hstale.1]
          rw [hf, hr]
          exact ih s c1 c2 hcap1 hcap2 hid hne hnotin'
      | timer1 =>
          have hf : List.filter (fun c => !(isT1 c)) (CStep.timer1 :: b)
              = List.filter (fun c => !(isT1 c)) b := by simp [isT1]
          have hr : runSched q1 q2 s (CStep.timer1 :: b) = runSched q1 q2 s b := by
            simp [runSched, hstale.2.1]
          rw [hf, hr]
          exact ih s c1 c2 hcap1 hcap2 hid hne hnotin'
      | merged1 =>
          have hf : List.filter (fun c => !(isT1 c)) (CStep.merged1 :: b)
              = List.filter (fun c => !(isT1 c)) b := by simp [isT1]
          have hr : runSched q1 q2 s (CStep.merged1 :: b) = runSched q1 q2 s b := by
            simp [runSched, hstale.2.2]
          rw [hf, hr]
          exact ih s c1 c2 hcap1 hcap2 hid hne hnotin'
      | start2 =>
          have hf : List.filter (fun c => !(isT1 c)) (CStep.start2 :: b)
              = CStep.start2 :: List.filter (fun c => !(isT1 c)) b := by simp [isT1]
          rw [hf]
          refine ⟨?_, ?_, ?_, ?_⟩ <;> · intro h; simp at h
      | static2 =>
          have hstep : stepFn q1 q2 s CStep.static2 =
              { s with currentResults := some (q2, true)
                       displayed := some (q2, true) } := by
            show (match s.cap2 with
              | some g => if g = s.currentSearchId then _ else s
              | none => s) = _
            rw [hcap2]
            dsimp only
            rw [if_pos hid.symm]
          have hf : List.filter (fun c => !(isT1 c)) (CStep.static2 :: b)
              = CStep.static2 :: List.filter (fun c => !(isT1 c)) b := by simp [isT1]
          have hr : runSched q1 q2 s (CStep.static2 :: b) =
              runSched q1 q2
                { s with currentResults := some (q2, true)
                         displayed := some (q2, true) } b := by
            simp [runSched, hstep]
          rw [hf, hr]
          refine ⟨?_, ?_, ?_, ?_⟩
          · intro h
            simp only [List.cons.injEq, true_and] at h
            exact (ih _ c1 c2 (by simpa using hcap1) (by simpa using hcap2)
              (by simpa using hid) hne hnotin').2.1 h
          · intro h; simp at h
          · intro h; simp at h
          · intro h; simp at h
      | timer2 =>
          have hf : List.filter (fun c => !(isT1 c)) (CStep.timer2 :: b)
              = CStep.timer2 :: List.filter (fun c => !(isT1 c)) b := by simp [isT1]
          have hr : runSched q1 q2 s (CStep.timer2 :: b) = runSched q1 q2 s b := by
            simp [runSched, stepFn]
          rw [hf, hr]
          refine ⟨?_, ?_, ?_, ?_⟩
          · intro h; simp at h
          · intro h
            simp only [List.cons.injEq, true_and] at h
            exact (ih s c1 c2 hcap1 hcap2 hid hne hnotin').2.2.1 h
          · intro h; simp at h
          · intro h; simp at h
      | merged2 =>
          have hstep : stepFn q1 q2 s CStep.merged2 =
              { s with currentResults := some (q2, false)
                       displayed := some (q2, false) } := by
            show (match s.cap2 with
              | some g => if g = s.currentSearchId then _ else s
              | none => s) = _
            rw [hcap2]
            dsimp only
            rw [if_pos hid.symm]
          have hf : List.filter (fun c => !(isT1 c)) (CStep.merged2 :: b)
              = CStep.merged2 :: List.filter (fun c => !(isT1 c)) b := by simp [isT1]
          have hr : runSched q1 q2 s (CStep.merged2 :: b) =
              runSched q1 q2
                { s with currentResults := some (q2, false)
                         displayed := some (q2, false) } b := by
            simp [runSched, hstep]
          rw [hf, hr]
          refine ⟨?_, ?_, ?_, ?_⟩
          · intro h; simp at h
          · intro h; simp at h
          · intro h
            simp only [List.cons.injEq, true_and] at h
            rw [(ih _ c1 c2 (by simpa using hcap1) (by simpa using hcap2)
              (by simpa using hid) hne hnotin').2.2.2 h]
            exact ⟨rfl, rfl⟩
          · intro h; simp at h

/-- C2: for any interleaving of two `performSearch` invocations in
which the second query is issued after the first (`start1` precedes
`start2`) and before the first query's provider results are processed
(`start2` precedes `merged1`), the final displayed result set and
`currentResults` come from the second query's final merge — every
task-1 continuation compares its captured generation with the current
one and mutates nothing when they differ
(`stagvault/static/web/app.js`, lines 1978-2053). -/
theorem C2_generation_drop (q1 q2 : String) (g0 : Nat)
    (sched a b : List CStep)
    (hdecomp : sched = a ++ CStep.start2 :: b)
    (hstart1 : CStep.start1 ∈ a)
    (hmerged1 : CStep.merged1 ∈ b)
    (hvalid : validSchedule sched) :
    ((runSched q1 q2 (initCoord g0) sched).displayed = some (q2, false) ∧
     (runSched q1 q2 (initCoord g0) sched).currentResults = some (q2, false)) ∧
    (∀ (s : CoordState) (g : Nat), s.cap1 = some g → g ≠ s.currentSearchId →
       stepFn q1 q2 s CStep.static1 = s ∧ stepFn q1 q2 s CStep.timer1 = s ∧
       stepFn q1 q2 s CStep.merged1 = s) := by
  refine ⟨?_, fun s g hcap hne => stepFn_t1_stale q1 q2 s g hcap hne⟩
  obtain ⟨hv1, hv2⟩ := hvalid
  subst hdecomp
  have hv2' : List.filter (fun c => !(isT1 c)) a ++
      CStep.start2 :: List.filter (fun c => !(isT1 c)) b =
      [CStep.start2, CStep.static2, CStep.timer2, CStep.merged2] := by
    simpa [isT1, t2Seq] using hv2
  have hfa : List.filter (fun c => !(isT1 c)) a = [] ∧
      List.filter (fun c => !(isT1 c)) b =
        [CStep.static2, CStep.timer2, CStep.merged2] := by
    cases hc : List.filter (fun c => !(isT1 c)) a with
    | nil =>
        rw [hc] at hv2'
        simp only [List.nil_append, List.cons.injEq, true_and] at hv2'
        exact ⟨rfl, hv2'⟩
    | cons x xs =>
        exfalso
        rw [hc] at hv2'
        simp only [List.cons_append, List.cons.injEq] at hv2'
        have hmem : CStep.start2 ∈ xs ++ CStep.start2 ::
            List.filter (fun c => !(isT1 c)) b :=
          List.mem_append_right _ (List.mem_cons_self _ _)
        rw [hv2'.2] at hmem
        simp at hmem
  have hallT1 : ∀ x ∈ a, isT1 x = true := by
    intro x hx
    cases hb : isT1 x with
    | true => rfl
    | false =>
        exfalso
        have hxf : x ∈ List.filter (fun c => !(isT1 c)) a :=
          List.mem_filter.mpr ⟨hx, by simp [hb]⟩
        rw [hfa.1] at hxf
        simp at hxf
  have ha_eq : List.filter isT1 a = a := List.filter_eq_self.mpr hallT1
  have hv1' : a ++ List.filter isT1 b =
      [CStep.start1, CStep.static1, CStep.timer1, CStep.merged1] := by
    have := hv1
    rw [List.filter_append, List.filter_cons] at this
    simpa [isT1, ha_eq, t1Seq] using this
  have hmerged1f : CStep.merged1 ∈ List.filter isT1 b :=
    List.mem_filter.mpr ⟨hmerged1, rfl⟩
  have main : ∀ (s' : CoordState), s'.cap1 = some (g0 + 1) →
      s'.cap2 = some (g0 + 2) → s'.currentSearchId = g0 + 2 →
      CStep.start1 ∉ b →
      (runSched q1 q2 s' b).displayed = some (q2, false) ∧
      (runSched q1 q2 s' b).currentResults = some (q2, false) :=
    fun s' h1 h2 h3 h4 =>
      (runT2Aux q1 q2 b s' (g0 + 1) (g0 + 2) h1 h2 h3 (by omega) h4).1 hfa.2
  cases a with
  | nil => exact absurd hstart1 (by simp)
  | cons x0 a1 =>
    simp only [List.cons_append, List.cons.injEq] at hv1'
    obtain ⟨hx0, hv1''⟩ := hv1'
    subst hx0
    cases a1 with
    | nil =>
        simp only [List.nil_append] at hv1''
        have hnb : CStep.start1 ∉ b := by
          intro hmem
          have hm : CStep.start1 ∈ List.filter isT1 b :=
            List.mem_filter.mpr ⟨hmem, rfl⟩
          rw [hv1''] at hm
          simp at hm
        have hs' : runSched q1 q2 (initCoord g0) [CStep.start1, CStep.start2] =
            ⟨g0 + 2, some (g0 + 1), some (g0 + 2), none, none⟩ := by
          simp [runSched, stepFn, initCoord]
        rw [show (CStep.start1 :: ([] : List CStep)) ++ CStep.start2 :: b =
              [CStep.start1, CStep.start2] ++ b from rfl,
            runSched_append, hs']
        exact main _ rfl rfl rfl hnb
    | cons x1 a2 =>
      simp only [List.cons_append, List.cons.injEq] at hv1''
      obtain ⟨hx1, hv1''⟩ := hv1''
      subst hx1
      cases a2 with
      | nil =>
          simp only [List.nil_append] at hv1''
          have hnb : CStep.start1 ∉ b := by
            intro hmem
            have hm : CStep.start1 ∈ List.filter isT1 b :=
              List.mem_filter.mpr ⟨hmem, rfl⟩
            rw [hv1''] at hm
            simp at hm
          have hs' : runSched q1 q2 (initCoord g0)
              [CStep.start1, CStep.static1, CStep.start2] =
              ⟨g0 + 2, some (g0 + 1), some (g0 + 2),
               some (q1, true), some (q1, true)⟩ := by
            simp [runSched, stepFn, initCoord]
          rw [show (CStep.start1 :: CStep.static1 :: ([] : List CStep)) ++
                CStep.start2 :: b =
                [CStep.start1, CStep.static1, CStep.start2] ++ b from rfl,
              runSched_append, hs']
          exact main _ rfl rfl rfl hnb
      | cons x2 a3 =>
        simp only [List.cons_append, List.cons.injEq] at hv1''
        obtain ⟨hx2, hv1''⟩ := hv1''
        subst hx2
        cases a3 with
        | nil =>
            simp only [List.nil_append] at hv1''
            have hnb : CStep.start1 ∉ b := by
              intro hmem
              have hm : CStep.start1 ∈ List.filter isT1 b :=
                List.mem_filter.mpr ⟨hmem, rfl⟩
              rw [hv1''] at hm
              simp at hm
            have hs' : runSched q1 q2 (initCoord g0)
                [CStep.start1, CStep.static1, CStep.timer1, CStep.start2] =
                ⟨g0 + 2, some (g0 + 1), some (g0 + 2),
                 some (q1, true), some (q1, true)⟩ := by
              simp [runSched, stepFn, initCoord]
            rw [show (CStep.start1 :: CStep.static1 :: CStep.timer1 ::
                  ([] : List CStep)) ++ CStep.start2 :: b =
                  [CStep.start1, CStep.static1, CStep.timer1, CStep.start2] ++ b
                  from rfl,
                runSched_append, hs']
            exact main _ rfl rfl rfl hnb
        | cons x3 a4 =>
            exfalso
            simp only [List.cons_append, List.cons.injEq] at hv1''
            have hnil : List.filter isT1 b = [] := by
              have := hv1''.2
              rcases List.append_eq_nil.mp this with ⟨_, h2⟩
              exact h2
            rw [hnil] at hmerged1f
            simp at hmerged1f

/-- C2 witness: a concrete interleaving in which `q2` is issued after
`q1`'s static display but before `q1`'s provider results arrive — the
final state displays `q2`'s merge. -/
theorem C2_witness :
    (runSched "q1" "q2" (initCoord 0)
      [CStep.start1, CStep.static1, CStep.start2, CStep.static2, CStep.timer1,
       CStep.merged1, CStep.timer2, CStep.merged2]).displayed =
      some ("q2", false) ∧
    (runSched "q1" "q2" (initCoord 0)
      [CStep.start1, CStep.static1, CStep.start2, CStep.static2, CStep.timer1,
       CStep.merged1, CStep.timer2, CStep.merged2]).currentResults =
      some ("q2", false) :=
  (C2_generation_drop "q1" "q2" 0 _ [CStep.start1, CStep.static1]
    [CStep.static2, CStep.timer1, CStep.merged1, CStep.timer2, CStep.merged2]
    rfl (by decide) (by decide) ⟨by decide, by decide⟩).1

end StagVault
